import Mathlib

/-!
Verification of the trauma-desert analysis pipeline.

This file gives a shallow embedding, in Lean, of the algorithmic core of the
gun-violence / trauma-access pipeline (bivariate classification, tercile
binning, transport-time resolution, tract aggregation, GEOID normalization and
the validation checks), translated from the Python sources under `scripts/`
and `src/trauma_desert/`, and proves the specified properties about it.

Modelling conventions:
* pandas float cells are modelled by `PdFloat` (an exact rational, NaN, or a
  signed infinity); the NaN/infinity structure of float64 division is embedded
  exactly, finite arithmetic is exact-rational;
* a missing (NaN) cell of a string column is modelled as `none`;
* polygons appear only through their containment test, modelled as a boolean
  predicate on points;
* Python functions that cannot raise are embedded as total Lean functions.
-/

namespace TraumaDesert

/-! ## Bivariate classification (`scripts/analyze/bivariate_classification.py`) -/

/-- Embeds `BIVARIATE_MATRIX`: the Python dict from
(density_tercile, time_tercile) label pairs to the 1..9 class, in source
order. Class 9 is High density and High time, the "trauma desert". -/
def BIVARIATE_MATRIX : List ((String × String) × Nat) :=
  [(("Low", "Low"), 1),
   (("Low", "Medium"), 2),
   (("Low", "High"), 3),
   (("Medium", "Low"), 4),
   (("Medium", "Medium"), 5),
   (("Medium", "High"), 6),
   (("High", "Low"), 7),
   (("High", "Medium"), 8),
   (("High", "High"), 9)]

/-- Python dict lookup on `BIVARIATE_MATRIX` (`None` when the key is absent). -/
def matrixGet (k : String × String) : Option Nat :=
  BIVARIATE_MATRIX.lookup k

/-- One row of the master analysis dataset, restricted to the fields that
`create_bivariate_classification` reads. -/
structure Row where
  GEOID : String
  density_tercile : String
  time_tercile : String
deriving DecidableEq

/-- Embeds the per-row classification lambda of
`create_bivariate_classification`:
`BIVARIATE_MATRIX.get((row['density_tercile'], row['time_tercile']), 5)`,
i.e. dict lookup with default 5 for unknown combinations. -/
def bivariateClass (r : Row) : Nat :=
  (matrixGet (r.density_tercile, r.time_tercile)).getD 5

/-- Embeds the warning loop of `create_bivariate_classification`: the GEOIDs of
the rows whose tercile pair is not a key of `BIVARIATE_MATRIX`
(`gdf[unknown_mask]`), each of which is named in a logged warning. -/
def unknownWarnings (rows : List Row) : List String :=
  (rows.filter
    (fun r => (matrixGet (r.density_tercile, r.time_tercile)).isNone)).map
    (fun r => r.GEOID)

/-- Embeds `gdf['bivariate_class'] = gdf.apply(...)`: every row of the input is
kept and paired with its class; nothing is dropped and nothing is raised. -/
def classifyAll (rows : List Row) : List (Row × Nat) :=
  rows.map (fun r => (r, bivariateClass r))

/-- Numeric tier to tercile label, Low = 1, Medium = 2, High = 3: the
correspondence under which the spec states the combination formula. -/
def tierLabel : Nat → String
  | 1 => "Low"
  | 2 => "Medium"
  | 3 => "High"
  | _ => ""

/-! ## GEOID normalization (`src/trauma_desert/io_utils.py`) -/

/-- Embeds pandas `.str.split('.').str[0]` inside `normalize_geoid`: the part
of the string before the first '.' (the whole string when there is none). -/
def splitHead (cs : List Char) : List Char :=
  cs.takeWhile (fun c => c ≠ '.')

/-- Embeds Python `str.zfill(n)`: left-pad with '0' up to length `n`, keeping a
leading sign character in front of the padding. -/
def zfillChars (n : Nat) (cs : List Char) : List Char :=
  if n ≤ cs.length then cs
  else
    match cs with
    | [] => List.replicate n '0'
    | c :: rest =>
      if c = '+' ∨ c = '-' then c :: (List.replicate (n - cs.length) '0' ++ rest)
      else List.replicate (n - cs.length) '0' ++ cs

/-- Embeds `normalize_geoid` from `src/trauma_desert/io_utils.py`, acting on
one cell of the series:
`series.fillna('').astype(str).str.split('.').str[0].str.zfill(11)`.
A missing (NaN) cell is `none`; `fillna('')` turns it into the empty string. -/
def normalize_geoid (x : Option String) : String :=
  String.mk (zfillChars 11 (splitHead (x.getD "").toList))

/-- Embeds the ad-hoc key conversion at the join boundary of
`calculate_tract_density`:
`tract_stats['tract_geoid'].astype(int).astype(str)` acting on a nonnegative
whole-valued float column whose cell renders as the string `s`
(e.g. "42101000100.0"); int truncation followed by printing keeps exactly the
digits before the decimal point and performs no zero-padding. -/
def adhocDensityKey (s : String) : String :=
  String.mk (splitHead s.toList)

/-- Embeds the ad-hoc key conversion at the join boundary of
`create_master_dataset`: `astype(str)` on an already-string key column is the
identity, with no zero-padding. -/
def adhocMasterKey (s : String) : String := s

/-! ## Validation checks (`scripts/validate/run_validation.py`) -/

/-- Status of one validation check. -/
inductive Status where
  | PASS
  | WARN
  | FAIL
deriving DecidableEq, Repr

/-- Embeds Check 1 of `validate_shooting_data`:
`retention = len(clean_df) / len(raw_df) * 100`, then PASS when
`retention >= 99`, WARN when `retention >= 95`, else FAIL. -/
def retentionCheck (rawCount cleanCount : Nat) : Status :=
  if 99 ≤ (cleanCount : ℚ) / (rawCount : ℚ) * 100 then .PASS
  else if 95 ≤ (cleanCount : ℚ) / (rawCount : ℚ) * 100 then .WARN
  else .FAIL

/-- One recorded check (`ValidationResult.add_check`): name, status, message. -/
structure Check where
  check : String
  status : Status
  message : String
deriving DecidableEq

/-- One validator's outcome (`ValidationResult`): category name and checks. -/
structure VResult where
  name : String
  checks : List Check
deriving DecidableEq

/-- Embeds the report loop of `run_all_validations`: `all_checks` collects
every check of every result, tagged with its category; nothing is filtered and
a FAIL causes no early exit. -/
def buildReport (results : List VResult) : List (String × Check) :=
  (results.map (fun r => r.checks.map (fun c => (r.name, c)))).flatten

/-! ## Pandas float model and tract aggregation
(`scripts/process/calculate_tract_density.py`) -/

/-- Value of a pandas float cell: an exact rational, NaN, or a signed
infinity. The NaN/infinity structure of float64 arithmetic is embedded
exactly; finite arithmetic is exact-rational (signed zero is not modelled). -/
inductive PdFloat where
  | nan
  | inf
  | neginf
  | val (q : ℚ)
deriving DecidableEq

/-- Pandas/numpy float division: 0/0 is NaN, x/0 is a signed infinity for
x ≠ 0, NaN propagates, infinities divide as in IEEE 754. -/
def PdFloat.div : PdFloat → PdFloat → PdFloat
  | .nan, _ => .nan
  | _, .nan => .nan
  | .inf, .inf => .nan
  | .inf, .neginf => .nan
  | .neginf, .inf => .nan
  | .neginf, .neginf => .nan
  | .inf, .val q => if q < 0 then .neginf else .inf
  | .neginf, .val q => if q < 0 then .inf else .neginf
  | .val _, .inf => .val 0
  | .val _, .neginf => .val 0
  | .val a, .val b =>
    if b = 0 then
      if a = 0 then .nan else if a < 0 then .neginf else .inf
    else .val (a / b)

/-- Multiplication by a positive finite constant (used with 10000 and 100):
NaN and infinities are preserved, finite values scale exactly. -/
def PdFloat.scale (c : ℚ) : PdFloat → PdFloat
  | .nan => .nan
  | .inf => .inf
  | .neginf => .neginf
  | .val q => .val (q * c)

/-- Round-half-to-even on an exact rational (numpy's rounding rule). -/
def roundHalfEven (q : ℚ) : ℤ :=
  if q - ⌊q⌋ < 1 / 2 then ⌊q⌋
  else if 1 / 2 < q - ⌊q⌋ then ⌊q⌋ + 1
  else if ⌊q⌋ % 2 = 0 then ⌊q⌋ else ⌊q⌋ + 1

/-- Pandas `Series.round(d)`: NaN and infinities are preserved, a finite value
is rounded to `d` decimal places. -/
def roundTo (d : Nat) : PdFloat → PdFloat
  | .nan => .nan
  | .inf => .inf
  | .neginf => .neginf
  | .val q => .val ((roundHalfEven (q * 10 ^ d) : ℚ) / 10 ^ d)

/-- Embeds `Series.replace([float('inf'), float('-inf')], 0)` from
`calculate_tract_density`: infinities become 0; NaN and finite values pass
through unchanged. -/
def replaceInf : PdFloat → PdFloat
  | .inf => .val 0
  | .neginf => .val 0
  | x => x

/-- Embeds the per-capita rate column of `calculate_tract_density`:
`(total_shootings / total_population * 10000).round(1)` followed by the
inf-replacement loop. -/
def shootings_per_10k_pop (totalShootings population : Nat) : PdFloat :=
  replaceInf (roundTo 1 (PdFloat.scale 10000
    (PdFloat.div (.val totalShootings) (.val population))))

/-- Embeds `tract_stats['shootings_per_year'] = total_shootings / years_span`. -/
def shootings_per_year (totalShootings yearsSpan : Nat) : PdFloat :=
  PdFloat.div (.val totalShootings) (.val yearsSpan)

/-- Embeds the annual per-capita rate column of `calculate_tract_density`:
`(shootings_per_year / total_population * 10000).round(2)` followed by the
inf-replacement loop. -/
def annual_shootings_per_10k (spy : PdFloat) (population : Nat) : PdFloat :=
  replaceInf (roundTo 2 (PdFloat.scale 10000
    (PdFloat.div spy (.val population))))

/-- Embeds `tract_stats['fatality_rate'] =
(fatal_shootings / total_shootings * 100).round(1)`, computed inside the
groupby result of `calculate_tract_density`. -/
def fatality_rate (fatalShootings totalShootings : Nat) : PdFloat :=
  roundTo 1 (PdFloat.scale 100
    (PdFloat.div (.val fatalShootings) (.val totalShootings)))

/-- The incident-derived fields of one tract row after the left-merge and the
`fillna` block of `calculate_tract_density`. `fatality_rate` stays optional:
`fillna(0)` is applied to the count fields only. -/
structure MergedTract where
  total_shootings : Nat
  fatal_shootings : Nat
  fatality_rate : Option PdFloat
deriving DecidableEq

/-- Embeds, for one tract, the groupby aggregation of
`calculate_tract_density` followed by the left-merge onto the full tract list
and the `fillna(0)` block. `incidents` is the list of `is_fatal` flags of the
records assigned to the tract: a tract with no records is absent from
`tract_stats`, so the merge leaves its `fatality_rate` as NaN (`none`) while
`fillna(0)` zero-fills its counts. -/
def mergedStats (incidents : List Bool) : MergedTract :=
  if incidents.isEmpty then
    { total_shootings := 0, fatal_shootings := 0, fatality_rate := none }
  else
    { total_shootings := incidents.length,
      fatal_shootings := incidents.countP id,
      fatality_rate := some (fatality_rate (incidents.countP id) incidents.length) }

/-! ## Transport-time resolver (`scripts/process/calculate_transport_times.py`) -/

/-- Embeds `TIME_CATEGORIES`, the time thresholds of the isochrone rings. -/
def TIME_CATEGORIES : List Nat := [5, 10, 15, 20, 30]

/-- A tract centroid, with rational coordinates. -/
abbrev Point := ℚ × ℚ

/-- One isochrone record: facility name, time threshold and the ring polygon,
which enters the embedding through its containment test
(`iso.geometry.contains(centroid)`). -/
structure Isochrone where
  hospital_name : String
  time_minutes : Nat
  geometry : Point → Bool

/-- Time-ascending comparison used by `sort_values('time_minutes')`. -/
def timeLe (a b : Isochrone) : Prop := a.time_minutes ≤ b.time_minutes

instance : DecidableRel timeLe := fun a b => Nat.decLe a.time_minutes b.time_minutes

instance : IsTotal Isochrone timeLe := ⟨fun _ _ => Nat.le_total _ _⟩

instance : IsTrans Isochrone timeLe := ⟨fun _ _ _ => Nat.le_trans⟩

/-- Embeds `sort_values('time_minutes')` on a set of rings. -/
def sortRings (rings : List Isochrone) : List Isochrone :=
  rings.insertionSort timeLe

/-- Embeds the inner ring loop of `calculate_transport_times`: scan the rings
in the given order and return the time of the first ring that contains the
centroid (`break` on first match), or `none` if none does. -/
def firstContainingTime (c : Point) : List Isochrone → Option Nat
  | [] => none
  | iso :: rest =>
    if iso.geometry c then some iso.time_minutes else firstContainingTime c rest

/-- Embeds
`isochrones[isochrones['hospital_name'] == hospital].sort_values('time_minutes')`. -/
def hospitalRings (isochrones : List Isochrone) (h : String) : List Isochrone :=
  sortRings (isochrones.filter (fun iso => iso.hospital_name == h))

/-- Per-facility answer for one tract: the time of the first (smallest-time)
ring of facility `h` containing the centroid. -/
def facilityTime (isochrones : List Isochrone) (h : String) (c : Point) :
    Option Nat :=
  firstContainingTime c (hospitalRings isochrones h)

/-- One step of the running minimum of `calculate_transport_times`: the
current (min_time, nearest_hospital) pair is replaced only when the new
facility's found time is strictly smaller (`time_minutes < min_time`). -/
def stepMin (isochrones : List Isochrone) (c : Point)
    (acc : Option (Nat × String)) (h : String) : Option (Nat × String) :=
  match facilityTime isochrones h c with
  | none => acc
  | some t =>
    match acc with
    | none => some (t, h)
    | some (mt, mh) => if t < mt then some (t, h) else some (mt, mh)

/-- Embeds pandas `Series.unique()`: the distinct values in first-occurrence
order. -/
def uniqueFirst : List String → List String
  | [] => []
  | a :: l => a :: uniqueFirst (l.filter (fun b => b ≠ a))
termination_by l => l.length
decreasing_by
  simp only [List.length_cons]
  exact Nat.lt_succ_of_le (List.length_filter_le _ _)

/-- Embeds the per-tract body of `calculate_transport_times`: iterate over
`hospitals = isochrones['hospital_name'].unique()` keeping the running
minimum, and fall back to the sentinel `(31, "Beyond coverage")`
("30+ minutes") when no facility's ring contains the centroid. -/
def resolveTract (isochrones : List Isochrone) (c : Point) : Nat × String :=
  match (uniqueFirst (isochrones.map (fun iso => iso.hospital_name))).foldl
      (stepMin isochrones c) none with
  | some (t, h) => (t, h)
  | none => (31, "Beyond coverage")

/-- Times of the rings (among `rings`) that contain the centroid. -/
def containingTimes (c : Point) (rings : List Isochrone) : List Nat :=
  (rings.filter (fun iso => iso.geometry c)).map (fun iso => iso.time_minutes)

/-- Verification helper: the running-minimum combination underlying
`stepMin`, with the left (earlier) argument kept on ties. -/
def mergeL : Option (Nat × String) → Option (Nat × String) → Option (Nat × String)
  | none, b => b
  | a, none => a
  | some (ta, ha), some (tb, hb) => if tb < ta then some (tb, hb) else some (ta, ha)

/-- Verification helper: the facility-loop result expressed recursively — the
running minimum over the per-facility answers, earliest facility kept on
ties. -/
def bestOf (isochrones : List Isochrone) (c : Point) : List String → Option (Nat × String)
  | [] => none
  | h :: hs =>
    mergeL ((facilityTime isochrones h c).map (fun t => (t, h)))
      (bestOf isochrones c hs)

/-! ## Tercile classifier (`scripts/process/create_master_dataset.py`) -/

/-- First-occurrence comparison on (position, value) pairs: `p` comes no
later than `q` when its value is strictly smaller, or equal with a position
that is not larger. -/
def keyLe (p q : Nat × ℚ) : Bool :=
  decide (p.2 < q.2) || (decide (p.2 = q.2) && decide (p.1 ≤ q.1))

/-- Rank of the entry `q` among the enumerated entries `e` under `keyLe`
(1-based, counting `q` itself). -/
def rankOf (e : List (Nat × ℚ)) (q : Nat × ℚ) : Nat :=
  e.countP (fun p => keyLe p q)

/-- Embeds pandas `rank(method='first')` on one column: the rank of the value
at position `i` is the number of positions `j` holding a strictly smaller
value, or an equal value with `j ≤ i`. Ties are broken by first occurrence,
so the ranks are the integers 1..N in some order. -/
def rankFirst (xs : List ℚ) : List Nat :=
  xs.enum.map (rankOf xs.enum)

/-- Strict version of the first-occurrence order, as a proposition. -/
def keyLt (p q : Nat × ℚ) : Prop :=
  p.2 < q.2 ∨ (p.2 = q.2 ∧ p.1 < q.1)

/-- Embeds `pd.qcut(ranks, q=3, ...)` applied to a rank column with values
1..n: qcut cuts at the linearly interpolated 1/3 and 2/3 quantiles of the
ranks, which are `1 + (n-1)/3` and `1 + 2(n-1)/3`, with right-closed bins. -/
def tercileOfRank (n r : Nat) : Nat :=
  if (r : ℚ) ≤ 1 + ((n : ℚ) - 1) / 3 then 1
  else if (r : ℚ) ≤ 1 + 2 * ((n : ℚ) - 1) / 3 then 2
  else 3

/-- Embeds the tercile column construction of `create_master_dataset`:
`pd.qcut(col.rank(method='first'), q=3, labels=['Low', 'Medium', 'High'])`,
kept as the numeric tiers 1..3 (Low = 1, Medium = 2, High = 3). -/
def tercilesOf (xs : List ℚ) : List Nat :=
  (rankFirst xs).map (tercileOfRank xs.length)

/-! ## Helper lemmas -/

lemma splitHead_no_dot {cs : List Char} : ∀ c ∈ splitHead cs, c ≠ '.' := by
  intro c hc
  have := List.mem_takeWhile_imp hc
  simpa using this

lemma splitHead_eq_self {cs : List Char} (h : ∀ c ∈ cs, c ≠ '.') :
    splitHead cs = cs := by
  induction cs with
  | nil => rfl
  | cons a l ih =>
    have ha : a ≠ '.' := h a (List.mem_cons_self a l)
    show List.takeWhile _ (a :: l) = a :: l
    rw [List.takeWhile_cons_of_pos (by simpa using ha)]
    exact congrArg (a :: ·) (ih fun c hc => h c (List.mem_cons_of_mem a hc))

lemma zfillChars_length (n : Nat) (cs : List Char) :
    cs.length ≤ (zfillChars n cs).length ∧ n ≤ (zfillChars n cs).length := by
  rw [zfillChars.eq_def]
  split
  · omega
  · split
    · simp
    · split <;>
        simp only [List.length_cons, List.length_append, List.length_replicate] <;>
        omega

lemma zfillChars_no_dot {n : Nat} {cs : List Char} (h : ∀ c ∈ cs, c ≠ '.') :
    ∀ c ∈ zfillChars n cs, c ≠ '.' := by
  intro c hc
  unfold zfillChars at hc
  split at hc
  · exact h c hc
  · split at hc
    · simp [List.mem_replicate] at hc
      simp [hc]
    · rename_i cs' a rest
      split at hc
      · rcases List.mem_cons.1 hc with rfl | hc'
        · exact h c (List.mem_cons_self _ _)
        · rcases List.mem_append.1 hc' with hrep | hr
          · rw [List.eq_of_mem_replicate hrep]
            simp
          · exact h c (List.mem_cons_of_mem _ hr)
      · rcases List.mem_append.1 hc with hrep | hr
        · rw [List.eq_of_mem_replicate hrep]
          simp
        · exact h c hr

lemma toList_mk (cs : List Char) : (String.mk cs).toList = cs := rfl

lemma PdFloat.div_val (a b : ℚ) :
    PdFloat.div (.val a) (.val b) =
      if b = 0 then
        (if a = 0 then .nan else if a < 0 then .neginf else .inf)
      else .val (a / b) := rfl

/-! ## Theorems for the claims -/

/-- C10: `normalize_geoid` is total (a Lean function by construction, with no
failing path), idempotent, and maps a missing (NaN) identifier to the
fabricated key "00000000000", the 11-character zero-fill of the empty
string, rather than raising or keeping the missing marker. -/
theorem C10_normalize_geoid_total_idempotent_nan :
    (∀ x : Option String,
      normalize_geoid (some (normalize_geoid x)) = normalize_geoid x) ∧
    normalize_geoid none = "00000000000" := by
  constructor
  · intro x
    unfold normalize_geoid
    simp only [Option.getD_some, toList_mk]
    have hnd : ∀ c ∈ zfillChars 11 (splitHead (x.getD "").toList), c ≠ '.' :=
      zfillChars_no_dot (fun c hc => splitHead_no_dot c hc)
    rw [splitHead_eq_self hnd]
    have hlen := (zfillChars_length 11 (splitHead (x.getD "").toList)).2
    rw [zfillChars.eq_def, if_pos hlen]
  · decide

/-- C8 counterexample: on the identifier whose pre-decimal digits are "100",
the float-to-int-to-string conversion of the density aggregator and the plain
string cast of the master-dataset join both yield "100", while the canonical
`normalize_geoid` yields the zero-padded "00000000100". -/
theorem C8_counterexample_adhoc_keys_differ :
    adhocDensityKey "100.0" ≠ normalize_geoid (some "100.0") ∧
    adhocMasterKey "100" ≠ normalize_geoid (some "100") := by
  constructor <;> decide

/-- C8 (amended): the canonical normalization is not applied before the joins
of the density aggregator and of the master dataset; the ad-hoc key
conversions used there agree with `normalize_geoid` exactly on the
identifiers whose pre-decimal digit string already has width at least 11
(the full-width GEOIDs of this pipeline), and differ — by omitting the
zero-padding — on any shorter identifier. -/
theorem C8_adhoc_keys_match_at_full_width :
    (∀ s : String, 11 ≤ (splitHead s.toList).length →
      adhocDensityKey s = normalize_geoid (some s)) ∧
    (∀ s : String, (∀ c ∈ s.toList, c ≠ '.') → 11 ≤ s.toList.length →
      adhocMasterKey s = normalize_geoid (some s)) ∧
    (∀ s : String, (splitHead s.toList).length < 11 →
      adhocDensityKey s ≠ normalize_geoid (some s)) ∧
    (∀ s : String, s.toList.length < 11 →
      adhocMasterKey s ≠ normalize_geoid (some s)) := by
  refine ⟨?_, ?_, ?_, ?_⟩
  · intro s hlen
    unfold adhocDensityKey normalize_geoid
    rw [Option.getD_some, zfillChars.eq_def, if_pos hlen]
  · intro s hdot hlen
    unfold adhocMasterKey normalize_geoid
    rw [Option.getD_some, splitHead_eq_self hdot, zfillChars.eq_def, if_pos hlen]
    exact (String.asString_toList s).symm
  · intro s hlt heq
    unfold adhocDensityKey normalize_geoid at heq
    rw [Option.getD_some] at heq
    have hAB : splitHead s.toList = zfillChars 11 (splitHead s.toList) := by
      injection heq
    have hlen := congrArg List.length hAB
    have h11 := (zfillChars_length 11 (splitHead s.toList)).2
    omega
  · intro s hlt heq
    unfold adhocMasterKey normalize_geoid at heq
    rw [Option.getD_some] at heq
    have hAB : s.toList = zfillChars 11 (splitHead s.toList) := by
      have := congrArg String.toList heq
      simpa using this
    have hlen := congrArg List.length hAB
    have h11 := (zfillChars_length 11 (splitHead s.toList)).2
    omega

/-- C8 witness: on a full-width identifier the ad-hoc conversions and
`normalize_geoid` coincide, and on sub-width identifiers each ad-hoc
conversion differs from `normalize_geoid`. -/
theorem C8_adhoc_keys_match_at_full_width_witness :
    (adhocDensityKey "42101000100.0" =
      normalize_geoid (some "42101000100.0")) ∧
    (adhocMasterKey "42101000100" = normalize_geoid (some "42101000100")) ∧
    (adhocDensityKey "512.0" ≠ normalize_geoid (some "512.0")) ∧
    (adhocMasterKey "42" ≠ normalize_geoid (some "42")) :=
  ⟨C8_adhoc_keys_match_at_full_width.1 "42101000100.0" (by decide),
   C8_adhoc_keys_match_at_full_width.2.1 "42101000100" (by decide) (by decide),
   C8_adhoc_keys_match_at_full_width.2.2.1 "512.0" (by decide),
   C8_adhoc_keys_match_at_full_width.2.2.2 "42" (by decide)⟩

lemma bivariateClass_bounds (r : Row) :
    1 ≤ bivariateClass r ∧ bivariateClass r ≤ 9 := by
  unfold bivariateClass
  cases h : matrixGet (r.density_tercile, r.time_tercile) with
  | none => simp
  | some v =>
    rcases List.lookup_eq_some_iff.1 h with ⟨l₁, l₂, hsplit, -⟩
    have hv : ((r.density_tercile, r.time_tercile), v) ∈ BIVARIATE_MATRIX := by
      rw [hsplit]
      exact List.mem_append_right _ (List.mem_cons_self _ _)
    have hv2 : v ∈ BIVARIATE_MATRIX.map Prod.snd :=
      List.mem_map_of_mem Prod.snd hv
    simp only [BIVARIATE_MATRIX, List.map_cons, List.map_nil, List.mem_cons,
      List.not_mem_nil, or_false] at hv2
    rcases hv2 with rfl | rfl | rfl | rfl | rfl | rfl | rfl | rfl | rfl <;> simp

/-- C1: the bivariate lookup table realizes class = (density_tier − 1) × 3 +
time_tier on the tiers 1..3 (Low = 1, Medium = 2, High = 3); enumerating the
nine (density, time) pairs in row-major order yields exactly the classes 1..9
once each (so the table is a bijection onto 1..9); (High, High) maps to 9 and
(Low, Low) to 1; and classification gives every input row exactly one class,
which lies in 1..9. -/
theorem C1_bivariate_matrix_formula_bijection :
    (∀ d t : Fin 3,
      matrixGet (tierLabel (d.val + 1), tierLabel (t.val + 1)) =
        some (d.val * 3 + t.val + 1)) ∧
    (((List.finRange 3).map (fun d =>
        (List.finRange 3).map (fun t =>
          matrixGet (tierLabel (d.val + 1), tierLabel (t.val + 1))))).flatten =
      (List.range 9).map (fun c => some (c + 1))) ∧
    matrixGet ("High", "High") = some 9 ∧
    matrixGet ("Low", "Low") = some 1 ∧
    (∀ rows : List Row,
      (classifyAll rows).length = rows.length ∧
      ((classifyAll rows).map Prod.snd).all
        (fun c => decide (1 ≤ c) && decide (c ≤ 9)) = true) := by
  refine ⟨by decide, by decide, by decide, by decide, fun rows => ⟨?_, ?_⟩⟩
  · simp [classifyAll]
  · simp only [List.all_eq_true, classifyAll, List.map_map, List.mem_map]
    rintro c ⟨r, -, rfl⟩
    have := bivariateClass_bounds r
    simp only [Function.comp_apply, Bool.and_eq_true, decide_eq_true_eq]
    omega

/-- C5: a row whose (density_tercile, time_tercile) pair is not a key of
`BIVARIATE_MATRIX` is assigned the middle class 5, its GEOID appears in the
logged warnings, and the row is still present in the classified output, whose
length equals the input length (nothing raised, nothing dropped). -/
theorem C5_unknown_combination_defaults_to_middle :
    ∀ (rows : List Row) (r : Row), r ∈ rows →
      matrixGet (r.density_tercile, r.time_tercile) = none →
      bivariateClass r = 5 ∧ r.GEOID ∈ unknownWarnings rows ∧
      (r, 5) ∈ classifyAll rows ∧ (classifyAll rows).length = rows.length := by
  intro rows r hmem hnone
  have hcls : bivariateClass r = 5 := by
    unfold bivariateClass
    rw [hnone]
    rfl
  refine ⟨hcls, ?_, ?_, by simp [classifyAll]⟩
  · unfold unknownWarnings
    refine List.mem_map_of_mem _ (List.mem_filter.2 ⟨hmem, ?_⟩)
    simp [hnone]
  · have : (r, bivariateClass r) ∈ classifyAll rows :=
      List.mem_map_of_mem _ hmem
    rwa [hcls] at this

/-- C5 witness: a concrete unknown combination ("Unknown", "Low") defaults to
class 5, is named in the warnings, and is kept in the output. -/
theorem C5_unknown_combination_defaults_to_middle_witness :
    bivariateClass ⟨"g1", "Unknown", "Low"⟩ = 5 ∧
    "g1" ∈ unknownWarnings [⟨"g1", "Unknown", "Low"⟩, ⟨"g2", "Low", "Low"⟩] ∧
    ((⟨"g1", "Unknown", "Low"⟩ : Row), 5) ∈
      classifyAll [⟨"g1", "Unknown", "Low"⟩, ⟨"g2", "Low", "Low"⟩] ∧
    (classifyAll [⟨"g1", "Unknown", "Low"⟩, ⟨"g2", "Low", "Low"⟩]).length =
      [(⟨"g1", "Unknown", "Low"⟩ : Row), ⟨"g2", "Low", "Low"⟩].length :=
  C5_unknown_combination_defaults_to_middle _ _ (by decide) (by decide)

/-- C9: the record-retention check is PASS exactly when the cleaned-to-raw
ratio is at least 99% (i.e. 99·raw ≤ 100·clean), WARN exactly when it is at
least 95% but below 99%, and FAIL otherwise; and every check produced by any
validator — a FAIL included — is recorded in the report, which is built with
no filtering and no early exit. -/
theorem C9_retention_thresholds_and_fail_recorded :
    (∀ rawCount cleanCount : Nat, 0 < rawCount →
      (retentionCheck rawCount cleanCount = .PASS ↔
        99 * rawCount ≤ 100 * cleanCount) ∧
      (retentionCheck rawCount cleanCount = .WARN ↔
        95 * rawCount ≤ 100 * cleanCount ∧ 100 * cleanCount < 99 * rawCount) ∧
      (retentionCheck rawCount cleanCount = .FAIL ↔
        100 * cleanCount < 95 * rawCount)) ∧
    (∀ (results : List VResult) (r : VResult) (c : Check),
      r ∈ results → c ∈ r.checks → (r.name, c) ∈ buildReport results) := by
  constructor
  · intro rawCount cleanCount hraw
    have hr : (0 : ℚ) < (rawCount : ℚ) := by exact_mod_cast hraw
    have key : ∀ a : Nat,
        (((a : ℚ)) ≤ (cleanCount : ℚ) / (rawCount : ℚ) * 100 ↔
          a * rawCount ≤ 100 * cleanCount) := by
      intro a
      rw [div_mul_eq_mul_div, le_div_iff₀ hr]
      rw [show ((a : ℚ)) * (rawCount : ℚ) = (((a * rawCount : ℕ)) : ℚ) by
        push_cast
        ring]
      rw [show ((cleanCount : ℚ)) * 100 = (((100 * cleanCount : ℕ)) : ℚ) by
        push_cast
        ring]
      exact Nat.cast_le
    have k99 := key 99
    have k95 := key 95
    push_cast at k99 k95
    rcases Nat.lt_or_ge (100 * cleanCount) (95 * rawCount) with hA | hA
    · have hst : retentionCheck rawCount cleanCount = .FAIL := by
        unfold retentionCheck
        rw [if_neg (fun hq => absurd (k99.mp hq) (by omega)),
          if_neg (fun hq => absurd (k95.mp hq) (by omega))]
      rw [hst]
      refine ⟨?_, ?_, ?_⟩ <;> simp <;> omega
    · rcases Nat.lt_or_ge (100 * cleanCount) (99 * rawCount) with hB | hB
      · have hst : retentionCheck rawCount cleanCount = .WARN := by
          unfold retentionCheck
          rw [if_neg (fun hq => absurd (k99.mp hq) (by omega)),
            if_pos (k95.mpr hA)]
        rw [hst]
        refine ⟨?_, ?_, ?_⟩ <;> simp <;> omega
      · have hst : retentionCheck rawCount cleanCount = .PASS := by
          unfold retentionCheck
          rw [if_pos (k99.mpr hB)]
        rw [hst]
        refine ⟨?_, ?_, ?_⟩ <;> simp <;> omega
  · intro results r c hr hc
    unfold buildReport
    rw [List.mem_flatten]
    exact ⟨r.checks.map (fun c => (r.name, c)), List.mem_map_of_mem _ hr,
      List.mem_map_of_mem _ hc⟩

/-- C9 witness: at 1000 raw and 949 cleaned records the check FAILs
(94.9% < 95%), and that FAIL check is present in the built report. -/
theorem C9_retention_thresholds_witness :
    (retentionCheck 1000 949 = .FAIL ↔ 100 * 949 < 95 * 1000) ∧
    ("Shooting Data",
      (⟨"Record retention", .FAIL, "Only 94.9% retained"⟩ : Check)) ∈
      buildReport [⟨"Shooting Data",
        [⟨"Record retention", .FAIL, "Only 94.9% retained"⟩]⟩] :=
  ⟨((C9_retention_thresholds_and_fail_recorded.1 1000 949 (by decide)).2).2,
   C9_retention_thresholds_and_fail_recorded.2
     [⟨"Shooting Data",
        [⟨"Record retention", .FAIL, "Only 94.9% retained"⟩]⟩]
     ⟨"Shooting Data",
        [⟨"Record retention", .FAIL, "Only 94.9% retained"⟩]⟩
     ⟨"Record retention", .FAIL, "Only 94.9% retained"⟩
     (by decide) (by decide)⟩

lemma replaceInf_ne_inf (x : PdFloat) :
    replaceInf x ≠ PdFloat.inf ∧ replaceInf x ≠ PdFloat.neginf := by
  cases x <;> simp [replaceInf]

/-- C6 counterexample: a tract with population 0 and 0 incidents gets NaN for
its per-capita rates, not an explicit zero — 0/0 is NaN and the
inf-replacement step replaces only the two infinities — refuting the claim's
"regardless of the tract's incident count". -/
theorem C6_counterexample_zero_pop_zero_incidents_nan :
    shootings_per_10k_pop 0 0 = PdFloat.nan ∧
    annual_shootings_per_10k (shootings_per_year 0 7) 0 = PdFloat.nan ∧
    PdFloat.nan ≠ PdFloat.val 0 := by
  refine ⟨by decide, ?_, by decide⟩
  show annual_shootings_per_10k (PdFloat.div (.val 0) (.val 7)) 0 = PdFloat.nan
  norm_num [PdFloat.div, annual_shootings_per_10k, PdFloat.scale, roundTo,
    replaceInf]

/-- C6 (amended): for a tract with population zero and a positive incident
count, both per-capita rate fields are an explicit zero (the division gives
infinity, which the replacement step turns into 0); and for every input the
rate fields are never an infinity; computing them never raises (the embedding
is a total function). With zero incidents and zero population, however, the
result is NaN, not zero. -/
theorem C6_zero_population_rate_amended :
    (∀ s : Nat, 0 < s → shootings_per_10k_pop s 0 = PdFloat.val 0) ∧
    (∀ s y : Nat, 0 < s → 0 < y →
      annual_shootings_per_10k (shootings_per_year s y) 0 = PdFloat.val 0) ∧
    (∀ s p : Nat, shootings_per_10k_pop s p ≠ PdFloat.inf ∧
      shootings_per_10k_pop s p ≠ PdFloat.neginf) ∧
    (∀ (x : PdFloat) (p : Nat), annual_shootings_per_10k x p ≠ PdFloat.inf ∧
      annual_shootings_per_10k x p ≠ PdFloat.neginf) := by
  refine ⟨?_, ?_, ?_, ?_⟩
  · intro s hs
    have hs' : (0 : ℚ) < (s : ℚ) := by exact_mod_cast hs
    have h1 : ((s : ℚ)) ≠ 0 := ne_of_gt hs'
    have h2 : ¬ ((s : ℚ) < 0) := not_lt.mpr (le_of_lt hs')
    simp [shootings_per_10k_pop, PdFloat.div, PdFloat.scale, roundTo,
      replaceInf, h1, h2]
  · intro s y hs hy
    have hs' : (0 : ℚ) < (s : ℚ) := by exact_mod_cast hs
    have hy' : (0 : ℚ) < (y : ℚ) := by exact_mod_cast hy
    have hsy : (0 : ℚ) < (s : ℚ) / (y : ℚ) := div_pos hs' hy'
    have h2 : ((y : ℚ)) ≠ 0 := ne_of_gt hy'
    have h3 : ¬ ((s : ℚ) / (y : ℚ) < 0) := not_lt.mpr (le_of_lt hsy)
    have h4 : ((s : ℚ)) / (y : ℚ) ≠ 0 := ne_of_gt hsy
    simp [annual_shootings_per_10k, shootings_per_year, PdFloat.div,
      PdFloat.scale, roundTo, replaceInf, h2, h3, h4]
  · intro s p
    exact replaceInf_ne_inf _
  · intro x p
    exact replaceInf_ne_inf _

/-- C6 witness: concrete instances of the amended claim. -/
theorem C6_zero_population_rate_amended_witness :
    shootings_per_10k_pop 3 0 = PdFloat.val 0 ∧
    annual_shootings_per_10k (shootings_per_year 3 7) 0 = PdFloat.val 0 ∧
    (shootings_per_10k_pop 3 0 ≠ PdFloat.inf ∧
      shootings_per_10k_pop 3 0 ≠ PdFloat.neginf) :=
  ⟨C6_zero_population_rate_amended.1 3 (by decide),
   (C6_zero_population_rate_amended.2).1 3 7 (by decide) (by decide),
   ((C6_zero_population_rate_amended.2).2).1 3 0⟩

lemma roundHalfEven_close (y : ℚ) : |(roundHalfEven y : ℚ) - y| ≤ 1 / 2 := by
  have hfl : (⌊y⌋ : ℚ) ≤ y := Int.floor_le y
  have hfu : y < (⌊y⌋ : ℚ) + 1 := Int.lt_floor_add_one y
  unfold roundHalfEven
  split
  · rw [abs_le]
    refine ⟨by linarith, by linarith⟩
  · split
    · rw [abs_le]
      refine ⟨by push_cast; linarith, by push_cast; linarith⟩
    · split <;> rw [abs_le] <;>
        refine ⟨by push_cast; linarith, by push_cast; linarith⟩

/-- C7 counterexample: a tract with 1 fatal of 3 total incidents gets a
fatality rate of 33.3 (the code rounds to one decimal), which is not equal to
fatal/total × 100 = 100/3, refuting the claim's exact "equals". -/
theorem C7_counterexample_rate_is_rounded :
    (mergedStats [true, false, false]).fatality_rate =
      some (PdFloat.val (333 / 10)) ∧
    (333 / 10 : ℚ) ≠ (1 : ℚ) / 3 * 100 := by
  constructor
  · have hrate : fatality_rate 1 3 = PdFloat.val (333 / 10) := by
      unfold fatality_rate
      rw [PdFloat.div_val, if_neg (by norm_num : ¬ (((3 : ℕ) : ℚ)) = 0)]
      simp only [PdFloat.scale, roundTo]
      have hval : ((1 : ℕ) : ℚ) / ((3 : ℕ) : ℚ) * 100 * 10 ^ 1 =
          1000 / 3 := by norm_num
      rw [hval]
      have hfl : ⌊(1000 / 3 : ℚ)⌋ = 333 := by
        rw [Int.floor_eq_iff]
        norm_num
      have hrhe : roundHalfEven (1000 / 3 : ℚ) = 333 := by
        unfold roundHalfEven
        rw [hfl, if_pos (by norm_num)]
      rw [hrhe]
      norm_num
    have hm : mergedStats [true, false, false] =
        { total_shootings := 3, fatal_shootings := 1,
          fatality_rate := some (fatality_rate 1 3) } := by
      unfold mergedStats
      rw [if_neg (by decide)]
      rfl
    rw [hm, hrate]
  · norm_num

/-- C7 (amended): the fatality rate equals fatal/total × 100 rounded to one
decimal place — a finite one-decimal value within 0.05 of fatal/total × 100 —
and for a tract with zero total incidents it is an explicit missing value
(none/NaN, from the left-merge), computed without raising and not replaced by
zero (the `fillna(0)` block covers only the count fields). -/
theorem C7_fatality_rate_missing_for_zero_total :
    ∀ incidents : List Bool,
      ((mergedStats incidents).fatality_rate = none ↔ incidents = []) ∧
      (incidents ≠ [] →
        ∃ q : ℚ, (mergedStats incidents).fatality_rate =
            some (PdFloat.val q) ∧
          |q - (incidents.countP id : ℚ) / (incidents.length : ℚ) * 100| ≤
            1 / 20 ∧
          ∃ z : ℤ, q = (z : ℚ) / 10) := by
  intro incidents
  constructor
  · unfold mergedStats
    split
    · rename_i hemp
      simp only [List.isEmpty_iff] at hemp
      simp [hemp]
    · rename_i hemp
      simp only [List.isEmpty_iff] at hemp
      simp [hemp]
  · intro hne
    have hemp : ¬ incidents.isEmpty := by
      simpa [List.isEmpty_iff] using hne
    have hlen : ((incidents.length : ℚ)) ≠ 0 := by
      have : incidents.length ≠ 0 := by
        simpa [List.length_eq_zero] using hne
      exact_mod_cast this
    unfold mergedStats
    rw [if_neg hemp]
    simp only
    unfold fatality_rate
    rw [PdFloat.div_val, if_neg hlen]
    simp only [PdFloat.scale, roundTo]
    refine ⟨_, rfl, ?_, _, rfl⟩
    have hclose := roundHalfEven_close
      ((incidents.countP id : ℚ) / (incidents.length : ℚ) * 100 * 10 ^ 1)
    rw [abs_le] at hclose ⊢
    rw [div_sub' _ _ _ (by norm_num : (10 : ℚ) ^ 1 ≠ 0)]
    rw [div_le_iff₀ (by norm_num : (0 : ℚ) < 10 ^ 1),
      le_div_iff₀ (by norm_num : (0 : ℚ) < 10 ^ 1)]
    constructor <;> nlinarith [hclose.1, hclose.2]

/-- C7 witness: concrete instance of the amended claim at one fatal of two
incidents (rate exactly 50.0). -/
theorem C7_fatality_rate_missing_for_zero_total_witness :
    ((mergedStats [true, false]).fatality_rate = none ↔
      [true, false] = ([] : List Bool)) ∧
    (∃ q : ℚ, (mergedStats [true, false]).fatality_rate =
        some (PdFloat.val q) ∧
      |q - (([true, false].countP id : ℚ)) / (([true, false].length : ℚ)) *
        100| ≤ 1 / 20 ∧
      ∃ z : ℤ, q = (z : ℚ) / 10) :=
  ⟨(C7_fatality_rate_missing_for_zero_total [true, false]).1,
   (C7_fatality_rate_missing_for_zero_total [true, false]).2 (by decide)⟩

lemma mem_sortRings {iso : Isochrone} {l : List Isochrone} :
    iso ∈ sortRings l ↔ iso ∈ l :=
  (List.perm_insertionSort timeLe l).mem_iff

lemma sorted_sortRings (l : List Isochrone) : List.Sorted timeLe (sortRings l) :=
  List.sorted_insertionSort timeLe l

lemma containingTimes_cons {c : Point} {a : Isochrone} {l : List Isochrone} :
    containingTimes c (a :: l) =
      if a.geometry c then a.time_minutes :: containingTimes c l
      else containingTimes c l := by
  by_cases h : a.geometry c <;> simp [containingTimes, List.filter_cons, h]

lemma containingTimes_eq_nil_iff {c : Point} {rings : List Isochrone} :
    containingTimes c rings = [] ↔ ∀ iso ∈ rings, iso.geometry c = false := by
  constructor
  · intro hnil iso hmem
    by_contra hgeo'
    have hgeo : iso.geometry c = true := by
      revert hgeo'
      cases iso.geometry c <;> simp
    have : iso.time_minutes ∈ containingTimes c rings := by
      unfold containingTimes
      exact List.mem_map_of_mem _ (List.mem_filter.2 ⟨hmem, hgeo⟩)
    simp [hnil] at this
  · intro hall
    unfold containingTimes
    have : rings.filter (fun iso => iso.geometry c) = [] := by
      rw [List.filter_eq_nil_iff]
      intro iso hmem
      simp [hall iso hmem]
    simp [this]

lemma firstContainingTime_eq_none_iff {c : Point} {rings : List Isochrone} :
    firstContainingTime c rings = none ↔
      ∀ iso ∈ rings, iso.geometry c = false := by
  induction rings with
  | nil => simp [firstContainingTime]
  | cons a l ih =>
    by_cases h : a.geometry c
    · simp [firstContainingTime, h]
    · simp [firstContainingTime, h, ih]

lemma firstContainingTime_sorted_spec {c : Point} {rings : List Isochrone}
    (hs : List.Sorted timeLe rings) {t : Nat}
    (ht : firstContainingTime c rings = some t) :
    t ∈ containingTimes c rings ∧ ∀ u ∈ containingTimes c rings, t ≤ u := by
  induction rings with
  | nil => simp [firstContainingTime] at ht
  | cons a l ih =>
    rw [List.sorted_cons] at hs
    obtain ⟨ha, hl⟩ := hs
    by_cases h : a.geometry c
    · rw [firstContainingTime, if_pos h] at ht
      obtain rfl : a.time_minutes = t := by injection ht
      refine ⟨by simp [containingTimes_cons, h], ?_⟩
      intro u hu
      rw [containingTimes_cons, if_pos h] at hu
      rcases List.mem_cons.1 hu with rfl | hu'
      · exact le_refl _
      · obtain ⟨iso', hiso', rfl⟩ :
            ∃ iso' ∈ l.filter (fun iso => iso.geometry c),
              iso'.time_minutes = u := by
          simpa [containingTimes, List.mem_map] using hu'
        exact ha iso' (List.mem_of_mem_filter hiso')
    · rw [firstContainingTime, if_neg h] at ht
      have := ih hl ht
      rwa [containingTimes_cons, if_neg h]

lemma facilityTime_some_spec {isochrones : List Isochrone} {h : String}
    {c : Point} {t : Nat} (ht : facilityTime isochrones h c = some t) :
    t ∈ containingTimes c
        (isochrones.filter (fun iso => iso.hospital_name == h)) ∧
    ∀ u ∈ containingTimes c
        (isochrones.filter (fun iso => iso.hospital_name == h)), t ≤ u := by
  unfold facilityTime hospitalRings at ht
  have hspec := firstContainingTime_sorted_spec (sorted_sortRings _) ht
  have hperm : List.Perm
      (containingTimes c
        (sortRings (isochrones.filter (fun iso => iso.hospital_name == h))))
      (containingTimes c
        (isochrones.filter (fun iso => iso.hospital_name == h))) := by
    unfold containingTimes sortRings
    exact List.Perm.map _
      (List.Perm.filter _ (List.perm_insertionSort timeLe _))
  exact ⟨hperm.mem_iff.mp hspec.1, fun u hu => hspec.2 u (hperm.mem_iff.mpr hu)⟩

lemma facilityTime_eq_none_iff {isochrones : List Isochrone} {h : String}
    {c : Point} :
    facilityTime isochrones h c = none ↔
      containingTimes c
        (isochrones.filter (fun iso => iso.hospital_name == h)) = [] := by
  unfold facilityTime hospitalRings
  rw [firstContainingTime_eq_none_iff, containingTimes_eq_nil_iff]
  constructor
  · intro hall iso hmem
    exact hall iso (mem_sortRings.mpr hmem)
  · intro hall iso hmem
    exact hall iso (mem_sortRings.mp hmem)

lemma containingTimes_filter_subset {c : Point} {l : List Isochrone}
    {p : Isochrone → Bool} {u : Nat} (hu : u ∈ containingTimes c (l.filter p)) :
    u ∈ containingTimes c l := by
  unfold containingTimes at hu ⊢
  obtain ⟨iso, hiso, rfl⟩ := List.mem_map.1 hu
  have h1 := List.mem_filter.1 hiso
  have h2 := List.mem_filter.1 h1.1
  exact List.mem_map_of_mem _ (List.mem_filter.2 ⟨h2.1, h1.2⟩)

lemma mergeL_none_left (b : Option (Nat × String)) : mergeL none b = b := by
  rcases b with _ | ⟨t, h⟩ <;> rfl

lemma mergeL_none_right (a : Option (Nat × String)) : mergeL a none = a := by
  rcases a with _ | ⟨t, h⟩ <;> rfl

lemma mergeL_some_some (ta tb : Nat) (ha hb : String) :
    mergeL (some (ta, ha)) (some (tb, hb)) =
      if tb < ta then some (tb, hb) else some (ta, ha) := rfl

lemma mergeL_assoc (a b c : Option (Nat × String)) :
    mergeL (mergeL a b) c = mergeL a (mergeL b c) := by
  rcases a with _ | ⟨ta, ha⟩ <;> rcases b with _ | ⟨tb, hb⟩ <;>
    rcases c with _ | ⟨tc, hc⟩ <;>
    simp only [mergeL_none_left, mergeL_none_right, mergeL_some_some] <;>
    split_ifs <;>
    first
      | rfl
      | (simp only [mergeL_some_some]
         split_ifs <;>
           first
             | rfl
             | omega)

lemma stepMin_eq_mergeL (isochrones : List Isochrone) (c : Point)
    (acc : Option (Nat × String)) (h : String) :
    stepMin isochrones c acc h =
      mergeL acc ((facilityTime isochrones h c).map (fun t => (t, h))) := by
  unfold stepMin
  cases facilityTime isochrones h c with
  | none => simp [mergeL_none_right]
  | some t =>
    cases acc with
    | none => rfl
    | some p =>
      obtain ⟨mt, mh⟩ := p
      rfl

lemma foldl_stepMin_eq_bestOf (isochrones : List Isochrone) (c : Point) :
    ∀ (hs : List String) (acc : Option (Nat × String)),
      hs.foldl (stepMin isochrones c) acc = mergeL acc (bestOf isochrones c hs) := by
  intro hs
  induction hs with
  | nil =>
    intro acc
    simp [bestOf, mergeL_none_right]
  | cons h hs ih =>
    intro acc
    rw [List.foldl_cons, ih, bestOf, ← mergeL_assoc, stepMin_eq_mergeL]

lemma bestOf_eq_none_iff {isochrones : List Isochrone} {c : Point}
    {hs : List String} :
    bestOf isochrones c hs = none ↔
      ∀ h ∈ hs, facilityTime isochrones h c = none := by
  induction hs with
  | nil => simp [bestOf]
  | cons h0 hs ih =>
    rw [bestOf]
    cases hft : facilityTime isochrones h0 c with
    | none =>
      simp only [Option.map_none', mergeL_none_left, ih]
      simp [hft]
    | some t0 =>
      simp only [Option.map_some']
      cases hbo : bestOf isochrones c hs with
      | none =>
        rw [mergeL_none_right]
        simp [hft]
      | some p =>
        obtain ⟨tr, hr⟩ := p
        rw [mergeL_some_some]
        split_ifs <;> simp [hft]

lemma bestOf_spec {isochrones : List Isochrone} {c : Point} :
    ∀ {hs : List String} {t : Nat} {h : String},
      bestOf isochrones c hs = some (t, h) →
      (∀ h' ∈ hs, ∀ t', facilityTime isochrones h' c = some t' → t ≤ t') ∧
      hs.find? (fun h' => facilityTime isochrones h' c == some t) = some h := by
  intro hs
  induction hs with
  | nil =>
    intro t h hbo
    simp [bestOf] at hbo
  | cons h0 hs ih =>
    intro t h hbo
    rw [bestOf] at hbo
    cases hft : facilityTime isochrones h0 c with
    | none =>
      rw [hft, Option.map_none', mergeL_none_left] at hbo
      obtain ⟨hbound, hfind⟩ := ih hbo
      refine ⟨?_, ?_⟩
      · intro h' hh' t' hft'
        rcases List.mem_cons.1 hh' with rfl | hh'
        · rw [hft] at hft'
          cases hft'
        · exact hbound h' hh' t' hft'
      · rw [List.find?_cons_of_neg, hfind]
        simp [hft]
    | some t0 =>
      rw [hft, Option.map_some'] at hbo
      cases hbr : bestOf isochrones c hs with
      | none =>
        rw [hbr, mergeL_none_right] at hbo
        injection hbo with hpair
        obtain rfl : t0 = t := congrArg Prod.fst hpair
        obtain rfl : h0 = h := congrArg Prod.snd hpair
        refine ⟨?_, ?_⟩
        · intro h' hh' t' hft'
          rcases List.mem_cons.1 hh' with rfl | hh'
          · rw [hft] at hft'
            injection hft' with ht'
            omega
          · have := bestOf_eq_none_iff.1 hbr h' hh'
            rw [this] at hft'
            cases hft'
        · rw [List.find?_cons_of_pos]
          simp [hft]
      | some p =>
        obtain ⟨tr, hr⟩ := p
        rw [hbr, mergeL_some_some] at hbo
        obtain ⟨hboundr, hfindr⟩ := ih hbr
        by_cases hcomp : tr < t0
        · rw [if_pos hcomp] at hbo
          injection hbo with hpair
          obtain rfl : tr = t := congrArg Prod.fst hpair
          obtain rfl : hr = h := congrArg Prod.snd hpair
          refine ⟨?_, ?_⟩
          · intro h' hh' t' hft'
            rcases List.mem_cons.1 hh' with rfl | hh'
            · rw [hft] at hft'
              injection hft' with ht'
              omega
            · exact hboundr h' hh' t' hft'
          · rw [List.find?_cons_of_neg, hfindr]
            simp only [hft, beq_iff_eq, Option.some.injEq]
            omega
        · rw [if_neg hcomp] at hbo
          injection hbo with hpair
          obtain rfl : t0 = t := congrArg Prod.fst hpair
          obtain rfl : h0 = h := congrArg Prod.snd hpair
          refine ⟨?_, ?_⟩
          · intro h' hh' t' hft'
            rcases List.mem_cons.1 hh' with rfl | hh'
            · rw [hft] at hft'
              injection hft' with ht'
              omega
            · have := hboundr h' hh' t' hft'
              omega
          · rw [List.find?_cons_of_pos]
            simp [hft]

lemma mem_uniqueFirst {a : String} : ∀ {l : List String}, a ∈ l → a ∈ uniqueFirst l := by
  intro l
  induction l using uniqueFirst.induct with
  | case1 =>
    intro ha
    simp at ha
  | case2 b l ih =>
    intro ha
    rw [uniqueFirst]
    rcases List.mem_cons.1 ha with rfl | ha'
    · exact List.mem_cons_self _ _
    · by_cases hab : a = b
      · subst hab
        exact List.mem_cons_self _ _
      · exact List.mem_cons_of_mem _ (ih (List.mem_filter.2 ⟨ha', by simp [hab]⟩))

lemma resolveTract_eq_bestOf (isochrones : List Isochrone) (c : Point) :
    resolveTract isochrones c =
      match bestOf isochrones c
          (uniqueFirst (isochrones.map (fun iso => iso.hospital_name))) with
      | some (t, h) => (t, h)
      | none => (31, "Beyond coverage") := by
  unfold resolveTract
  rw [foldl_stepMin_eq_bestOf, mergeL_none_left]

/-- C4: a tract whose centroid is contained in no ring of any facility is
assigned the sentinel time 31 — one unit beyond the largest threshold in
`TIME_CATEGORIES`, whose rings go up to 30 minutes — and the sentinel label
"Beyond coverage"; no missing value and no exception (the resolver is a total
function). -/
theorem C4_beyond_coverage_sentinel :
    (∀ (isochrones : List Isochrone) (c : Point),
      (∀ iso ∈ isochrones, iso.geometry c = false) →
      resolveTract isochrones c = (31, "Beyond coverage")) ∧
    31 = TIME_CATEGORIES.foldr max 0 + 1 := by
  constructor
  · intro isochrones c hall
    rw [resolveTract_eq_bestOf]
    have hnone : bestOf isochrones c
        (uniqueFirst (isochrones.map (fun iso => iso.hospital_name))) = none := by
      rw [bestOf_eq_none_iff]
      intro h hh
      rw [facilityTime_eq_none_iff, containingTimes_eq_nil_iff]
      intro iso hmem
      exact hall iso (List.mem_of_mem_filter hmem)
    rw [hnone]
  · decide

/-- C4 witness: one facility whose single ring contains nothing: the tract
gets (31, "Beyond coverage"). -/
theorem C4_beyond_coverage_sentinel_witness :
    resolveTract [⟨"Temple University Hospital", 30, fun _ => false⟩]
      ((0 : ℚ), (0 : ℚ)) = (31, "Beyond coverage") :=
  C4_beyond_coverage_sentinel.1
    [⟨"Temple University Hospital", 30, fun _ => false⟩] ((0 : ℚ), (0 : ℚ))
    (by intro iso hmem; simp at hmem; simp [hmem])

/-- C3: when at least one facility ring contains the tract centroid, the
resolver reports as time the minimum, over all containing rings of all
facilities, of the ring's threshold (each facility contributes the smallest
threshold of its containing rings, found by the ascending scan with early
break), and as facility the first one in iteration order (first-occurrence
order of `unique()`) whose per-facility answer equals that minimum — ties are
kept by the earlier facility because the running minimum is replaced only on
strictly smaller times; moreover the reported facility's own answer is
exactly the reported time. -/
theorem C3_minimum_time_and_first_facility_tie_break :
    ∀ (isochrones : List Isochrone) (c : Point),
      containingTimes c isochrones ≠ [] →
      ((resolveTract isochrones c).1 ∈ containingTimes c isochrones ∧
        ∀ u ∈ containingTimes c isochrones, (resolveTract isochrones c).1 ≤ u) ∧
      ((uniqueFirst (isochrones.map (fun iso => iso.hospital_name))).find?
          (fun h => facilityTime isochrones h c ==
            some (resolveTract isochrones c).1) =
        some (resolveTract isochrones c).2) ∧
      facilityTime isochrones (resolveTract isochrones c).2 c =
        some (resolveTract isochrones c).1 := by
  intro isochrones c hne
  set hospitals := uniqueFirst (isochrones.map (fun iso => iso.hospital_name))
    with hhosp
  have hbo : bestOf isochrones c hospitals ≠ none := by
    intro hn
    apply hne
    rw [containingTimes_eq_nil_iff]
    intro iso hmem
    by_contra hgeo
    have hgeo' : iso.geometry c = true := by
      revert hgeo
      cases iso.geometry c <;> simp
    have hh : iso.hospital_name ∈ hospitals :=
      mem_uniqueFirst (List.mem_map_of_mem _ hmem)
    have hft := bestOf_eq_none_iff.1 hn iso.hospital_name hh
    rw [facilityTime_eq_none_iff, containingTimes_eq_nil_iff] at hft
    have : iso.geometry c = false :=
      hft iso (List.mem_filter.2 ⟨hmem, by simp⟩)
    rw [this] at hgeo'
    cases hgeo'
  obtain ⟨⟨t, h⟩, hbest⟩ : ∃ p, bestOf isochrones c hospitals = some p := by
    cases hb : bestOf isochrones c hospitals with
    | none => exact absurd hb hbo
    | some p => exact ⟨p, rfl⟩
  have hres : resolveTract isochrones c = (t, h) := by
    rw [resolveTract_eq_bestOf, ← hhosp, hbest]
  obtain ⟨hbound, hfind⟩ := bestOf_spec hbest
  have hfth : facilityTime isochrones h c = some t := by
    have hp := List.find?_some hfind
    simpa using hp
  rw [hres]
  simp only
  refine ⟨⟨?_, ?_⟩, ?_, ?_⟩
  · exact containingTimes_filter_subset (facilityTime_some_spec hfth).1
  · intro u hu
    obtain ⟨iso, hiso, rfl⟩ : ∃ iso ∈ isochrones.filter
        (fun i => i.geometry c), iso.time_minutes = u := by
      simpa [containingTimes, List.mem_map] using hu
    have hmem : iso ∈ isochrones := List.mem_of_mem_filter hiso
    have hgeo : iso.geometry c = true := (List.mem_filter.1 hiso).2
    have hh : iso.hospital_name ∈ hospitals :=
      mem_uniqueFirst (List.mem_map_of_mem _ hmem)
    have hcts : iso.time_minutes ∈ containingTimes c
        (isochrones.filter (fun i => i.hospital_name == iso.hospital_name)) := by
      unfold containingTimes
      exact List.mem_map_of_mem _
        (List.mem_filter.2 ⟨List.mem_filter.2 ⟨hmem, by simp⟩, hgeo⟩)
    cases hft : facilityTime isochrones iso.hospital_name c with
    | none =>
      rw [facilityTime_eq_none_iff] at hft
      rw [hft] at hcts
      simp at hcts
    | some m =>
      have hmu := (facilityTime_some_spec hft).2 _ hcts
      have htm := hbound iso.hospital_name hh m hft
      omega
  · exact hfind
  · exact hfth

/-- C3 witness: facility "A"'s smallest containing ring is its 10-minute ring
while facility "B"'s is its 5-minute ring, so the resolver reports 5 minutes
from "B"; the 5 is the minimum of all containing thresholds and "B" is the
first facility achieving it. -/
theorem C3_minimum_time_and_first_facility_tie_break_witness :
    ((resolveTract
        [⟨"A", 5, fun _ => false⟩, ⟨"A", 10, fun _ => true⟩,
         ⟨"B", 5, fun _ => true⟩, ⟨"B", 10, fun _ => true⟩]
        ((0 : ℚ), (0 : ℚ))).1 ∈ containingTimes ((0 : ℚ), (0 : ℚ))
        [⟨"A", 5, fun _ => false⟩, ⟨"A", 10, fun _ => true⟩,
         ⟨"B", 5, fun _ => true⟩, ⟨"B", 10, fun _ => true⟩] ∧
      ∀ u ∈ containingTimes ((0 : ℚ), (0 : ℚ))
        [⟨"A", 5, fun _ => false⟩, ⟨"A", 10, fun _ => true⟩,
         ⟨"B", 5, fun _ => true⟩, ⟨"B", 10, fun _ => true⟩],
        (resolveTract
          [⟨"A", 5, fun _ => false⟩, ⟨"A", 10, fun _ => true⟩,
           ⟨"B", 5, fun _ => true⟩, ⟨"B", 10, fun _ => true⟩]
          ((0 : ℚ), (0 : ℚ))).1 ≤ u) ∧
    ((uniqueFirst (([⟨"A", 5, fun _ => false⟩, ⟨"A", 10, fun _ => true⟩,
         ⟨"B", 5, fun _ => true⟩, ⟨"B", 10, fun _ => true⟩] :
         List Isochrone).map (fun iso => iso.hospital_name))).find?
        (fun h => facilityTime
          [⟨"A", 5, fun _ => false⟩, ⟨"A", 10, fun _ => true⟩,
           ⟨"B", 5, fun _ => true⟩, ⟨"B", 10, fun _ => true⟩] h
          ((0 : ℚ), (0 : ℚ)) ==
          some (resolveTract
            [⟨"A", 5, fun _ => false⟩, ⟨"A", 10, fun _ => true⟩,
             ⟨"B", 5, fun _ => true⟩, ⟨"B", 10, fun _ => true⟩]
            ((0 : ℚ), (0 : ℚ))).1) =
      some (resolveTract
        [⟨"A", 5, fun _ => false⟩, ⟨"A", 10, fun _ => true⟩,
         ⟨"B", 5, fun _ => true⟩, ⟨"B", 10, fun _ => true⟩]
        ((0 : ℚ), (0 : ℚ))).2) ∧
    facilityTime
        [⟨"A", 5, fun _ => false⟩, ⟨"A", 10, fun _ => true⟩,
         ⟨"B", 5, fun _ => true⟩, ⟨"B", 10, fun _ => true⟩]
        (resolveTract
          [⟨"A", 5, fun _ => false⟩, ⟨"A", 10, fun _ => true⟩,
           ⟨"B", 5, fun _ => true⟩, ⟨"B", 10, fun _ => true⟩]
          ((0 : ℚ), (0 : ℚ))).2 ((0 : ℚ), (0 : ℚ)) =
      some (resolveTract
        [⟨"A", 5, fun _ => false⟩, ⟨"A", 10, fun _ => true⟩,
         ⟨"B", 5, fun _ => true⟩, ⟨"B", 10, fun _ => true⟩]
        ((0 : ℚ), (0 : ℚ))).1 :=
  C3_minimum_time_and_first_facility_tie_break
    [⟨"A", 5, fun _ => false⟩, ⟨"A", 10, fun _ => true⟩,
     ⟨"B", 5, fun _ => true⟩, ⟨"B", 10, fun _ => true⟩]
    ((0 : ℚ), (0 : ℚ)) (by decide)

lemma keyLe_refl (q : Nat × ℚ) : keyLe q q = true := by
  simp [keyLe]

lemma keyLe_of_keyLt_trans {x p q : Nat × ℚ} (hpq : keyLt p q)
    (hx : keyLe x p = true) : keyLe x q = true := by
  simp only [keyLe, Bool.or_eq_true, Bool.and_eq_true, decide_eq_true_eq] at hx ⊢
  rcases hx with h | ⟨he, hi⟩ <;> rcases hpq with h2 | ⟨he2, hi2⟩
  · exact Or.inl (lt_trans h h2)
  · exact Or.inl (he2 ▸ h)
  · exact Or.inl (he ▸ h2)
  · exact Or.inr ⟨he.trans he2, le_trans hi (le_of_lt hi2)⟩

lemma not_keyLe_of_keyLt {p q : Nat × ℚ} (h : keyLt p q) :
    keyLe q p = false := by
  simp only [keyLe, Bool.or_eq_false_iff, Bool.and_eq_false_iff,
    decide_eq_false_iff_not]
  rcases h with h | ⟨he, hi⟩
  · exact ⟨not_lt_of_gt h, Or.inl (fun he2 => absurd h (he2 ▸ lt_irrefl _))⟩
  · exact ⟨he ▸ lt_irrefl _, Or.inr (by omega)⟩

lemma keyLt_total {p q : Nat × ℚ} (hne : p.1 ≠ q.1) : keyLt p q ∨ keyLt q p := by
  rcases lt_trichotomy p.2 q.2 with h | h | h
  · exact Or.inl (Or.inl h)
  · rcases Nat.lt_or_ge p.1 q.1 with hi | hi
    · exact Or.inl (Or.inr ⟨h, hi⟩)
    · exact Or.inr (Or.inr ⟨h.symm, by omega⟩)
  · exact Or.inr (Or.inl h)

lemma countP_eq_add_of_imp {α : Type} (l : List α) (p q : α → Bool)
    (himp : ∀ x ∈ l, p x = true → q x = true) :
    l.countP q = l.countP p + l.countP (fun x => q x && !p x) := by
  induction l with
  | nil => simp
  | cons a l ih =>
    have himp' : ∀ x ∈ l, p x = true → q x = true :=
      fun x hx => himp x (List.mem_cons_of_mem _ hx)
    rw [List.countP_cons, List.countP_cons, List.countP_cons, ih himp']
    by_cases hp : p a = true
    · have hq := himp a (List.mem_cons_self _ _) hp
      simp [hp, hq]
      omega
    · rw [Bool.not_eq_true] at hp
      by_cases hq : q a = true <;> simp [hp, hq] <;> omega

lemma rankOf_lt_rankOf {e : List (Nat × ℚ)} {p q : Nat × ℚ} (hq : q ∈ e)
    (hlt : keyLt p q) : rankOf e p < rankOf e q := by
  have hsplit := countP_eq_add_of_imp e (fun x => keyLe x p) (fun x => keyLe x q)
    (fun x _ hx => keyLe_of_keyLt_trans hlt hx)
  have hpos : 0 < e.countP (fun x => keyLe x q && !keyLe x p) := by
    rw [List.countP_pos_iff]
    exact ⟨q, hq, by simp [keyLe_refl, not_keyLe_of_keyLt hlt]⟩
  beta_reduce at hsplit
  unfold rankOf
  omega

lemma rankOf_pos {e : List (Nat × ℚ)} {q : Nat × ℚ} (hq : q ∈ e) :
    1 ≤ rankOf e q := by
  have : 0 < e.countP (fun p => keyLe p q) :=
    List.countP_pos_iff.2 ⟨q, hq, keyLe_refl q⟩
  unfold rankOf
  omega

lemma rankOf_le_length {e : List (Nat × ℚ)} {q : Nat × ℚ} :
    rankOf e q ≤ e.length := by
  unfold rankOf
  exact List.countP_le_length _

lemma enum_fst_inj {xs : List ℚ} {p q : Nat × ℚ} (hp : p ∈ xs.enum)
    (hq : q ∈ xs.enum) (h1 : p.1 = q.1) : p = q :=
  List.inj_on_of_nodup_map (List.nodup_enum_map_fst xs) hp hq h1

lemma rankFirst_nodup (xs : List ℚ) : (rankFirst xs).Nodup := by
  unfold rankFirst
  refine List.Nodup.map_on ?_ ((List.nodup_enum_map_fst xs).of_map)
  intro p hp q hq heq
  by_contra hne
  have h1 : p.1 ≠ q.1 := fun h => hne (enum_fst_inj hp hq h)
  rcases keyLt_total h1 with hlt | hlt
  · exact absurd heq (Nat.ne_of_lt (rankOf_lt_rankOf hq hlt))
  · exact absurd heq.symm (Nat.ne_of_lt (rankOf_lt_rankOf hp hlt))

lemma rankFirst_length (xs : List ℚ) : (rankFirst xs).length = xs.length := by
  simp [rankFirst]

lemma rankFirst_toFinset (xs : List ℚ) :
    (rankFirst xs).toFinset = Finset.Icc 1 xs.length := by
  have hsub : (rankFirst xs).toFinset ⊆ Finset.Icc 1 xs.length := by
    intro r hr
    rw [List.mem_toFinset] at hr
    unfold rankFirst at hr
    obtain ⟨q, hq, rfl⟩ := List.mem_map.1 hr
    rw [Finset.mem_Icc]
    refine ⟨rankOf_pos hq, ?_⟩
    calc rankOf xs.enum q ≤ xs.enum.length := rankOf_le_length
    _ = xs.length := by simp
  have hcard : (Finset.Icc 1 xs.length).card ≤ (rankFirst xs).toFinset.card := by
    rw [List.toFinset_card_of_nodup (rankFirst_nodup xs), rankFirst_length,
      Nat.card_Icc]
    omega
  exact Finset.eq_of_subset_of_card_le hsub hcard

lemma range'_toFinset (n : Nat) :
    (List.range' 1 n).toFinset = Finset.Icc 1 n := by
  ext m
  simp only [List.mem_toFinset, List.mem_range'_1, Finset.mem_Icc]
  omega

lemma rankFirst_perm (xs : List ℚ) :
    List.Perm (rankFirst xs) (List.range' 1 xs.length) := by
  apply List.perm_of_nodup_nodup_toFinset_eq (rankFirst_nodup xs)
    (List.nodup_range' 1 xs.length)
  rw [rankFirst_toFinset, range'_toFinset]

lemma tercileOfRank_eq (n r : Nat) :
    tercileOfRank n r =
      if 3 * r ≤ n + 2 then 1 else if 3 * r ≤ 2 * n + 1 then 2 else 3 := by
  have h1 : ((r : ℚ) ≤ 1 + ((n : ℚ) - 1) / 3) ↔ 3 * r ≤ n + 2 := by
    rw [show (1 : ℚ) + ((n : ℚ) - 1) / 3 = ((n : ℚ) + 2) / 3 by ring,
      le_div_iff₀ (by norm_num : (0 : ℚ) < 3)]
    rw [show (r : ℚ) * 3 = ((3 * r : ℕ) : ℚ) by push_cast; ring]
    rw [show (n : ℚ) + 2 = ((n + 2 : ℕ) : ℚ) by push_cast; ring]
    exact Nat.cast_le
  have h2 : ((r : ℚ) ≤ 1 + 2 * ((n : ℚ) - 1) / 3) ↔ 3 * r ≤ 2 * n + 1 := by
    rw [show (1 : ℚ) + 2 * ((n : ℚ) - 1) / 3 = (2 * (n : ℚ) + 1) / 3 by ring,
      le_div_iff₀ (by norm_num : (0 : ℚ) < 3)]
    rw [show (r : ℚ) * 3 = ((3 * r : ℕ) : ℚ) by push_cast; ring]
    rw [show 2 * (n : ℚ) + 1 = ((2 * n + 1 : ℕ) : ℚ) by push_cast; ring]
    exact Nat.cast_le
  unfold tercileOfRank
  rw [if_congr h1 rfl (if_congr h2 rfl rfl)]

lemma tercileOfRank_mono (n : Nat) {r r' : Nat} (h : r ≤ r') :
    tercileOfRank n r ≤ tercileOfRank n r' := by
  rw [tercileOfRank_eq, tercileOfRank_eq]
  split_ifs <;> omega

lemma countP_range'_le (k n : Nat) :
    (List.range' 1 n).countP (fun r => decide (3 * r ≤ k)) = min (k / 3) n := by
  induction n with
  | zero => simp
  | succ m ih =>
    rw [List.range'_concat, List.countP_append, ih]
    simp only [List.countP_cons, List.countP_nil]
    by_cases h : 3 * (1 + 1 * m) ≤ k
    · simp only [h, decide_eq_true_eq, if_pos]
      omega
    · rw [if_neg (by simpa using h)]
      omega

lemma countP_range'_between (a b n : Nat) :
    (List.range' 1 n).countP
        (fun r => decide (a < 3 * r) && decide (3 * r ≤ b)) =
      min (b / 3) n - min (a / 3) n := by
  induction n with
  | zero => simp
  | succ m ih =>
    rw [List.range'_concat, List.countP_append, ih]
    simp only [List.countP_cons, List.countP_nil]
    by_cases h : a < 3 * (1 + 1 * m) ∧ 3 * (1 + 1 * m) ≤ b
    · rw [if_pos (by simpa using h)]
      omega
    · rw [if_neg (by simpa using h)]
      omega

lemma count_map_eq_countP (g : Nat → Nat) (l : List Nat) (t : Nat) :
    (l.map g).count t = l.countP (fun r => g r == t) := by
  rw [List.count_eq_countP, List.countP_map]
  rfl

lemma getD_map (f : Nat → Nat) : ∀ (l : List Nat) (i : Nat), i < l.length →
    (l.map f).getD i 0 = f (l.getD i 0) := by
  intro l
  induction l with
  | nil =>
    intro i hi
    simp at hi
  | cons a l ih =>
    intro i hi
    cases i with
    | zero => simp
    | succ j =>
      simp only [List.map_cons, List.getD_cons_succ]
      exact ih j (by simpa using hi)

/-- C2: for any metric column, binning by `qcut` over `rank(method='first')`
puts either ⌊N/3⌋ = N/3 or ⌈N/3⌉ = (N+2)/3 values in each of the three tiers,
and the tier assignment is monotone in the first-occurrence rank: a position
with a rank no larger than another's gets a tier no larger than the other's
(so every tier-1 value precedes every tier-2 value, which precedes every
tier-3 value, in rank order). -/
theorem C2_tercile_sizes_and_rank_order :
    ∀ xs : List ℚ,
      (((tercilesOf xs).count 1 = xs.length / 3 ∨
          (tercilesOf xs).count 1 = (xs.length + 2) / 3) ∧
        ((tercilesOf xs).count 2 = xs.length / 3 ∨
          (tercilesOf xs).count 2 = (xs.length + 2) / 3) ∧
        ((tercilesOf xs).count 3 = xs.length / 3 ∨
          (tercilesOf xs).count 3 = (xs.length + 2) / 3)) ∧
      (∀ i j : Nat, i < xs.length → j < xs.length →
        (rankFirst xs).getD i 0 ≤ (rankFirst xs).getD j 0 →
        (tercilesOf xs).getD i 0 ≤ (tercilesOf xs).getD j 0) := by
  intro xs
  constructor
  · have hcount : ∀ t : Nat, (tercilesOf xs).count t =
        (List.range' 1 xs.length).countP
          (fun r => tercileOfRank xs.length r == t) := by
      intro t
      unfold tercilesOf
      rw [((rankFirst_perm xs).map (tercileOfRank xs.length)).count_eq,
        count_map_eq_countP]
    set n := xs.length with hn
    have hc1 : (tercilesOf xs).count 1 = min ((n + 2) / 3) n := by
      rw [hcount 1, ← countP_range'_le (n + 2) n]
      apply List.countP_congr
      intro r hr
      rw [tercileOfRank_eq]
      split_ifs with h1 h2 <;> simp [h1]
    have hc2 : (tercilesOf xs).count 2 =
        min ((2 * n + 1) / 3) n - min ((n + 2) / 3) n := by
      rw [hcount 2, ← countP_range'_between (n + 2) (2 * n + 1) n]
      apply List.countP_congr
      intro r hr
      rw [tercileOfRank_eq]
      split_ifs with h1 h2 <;> simp <;> omega
    have hc3 : (tercilesOf xs).count 3 =
        min ((3 * n) / 3) n - min ((2 * n + 1) / 3) n := by
      rw [hcount 3, ← countP_range'_between (2 * n + 1) (3 * n) n]
      apply List.countP_congr
      intro r hr
      rw [List.mem_range'_1] at hr
      rw [tercileOfRank_eq]
      split_ifs with h1 h2 <;> simp <;> omega
    have hmin1 : min ((n + 2) / 3) n = (n + 2) / 3 := by omega
    have hmin2 : min ((2 * n + 1) / 3) n = (2 * n + 1) / 3 := by omega
    have h3n : 3 * n / 3 = n := by omega
    obtain ⟨k, hk⟩ : ∃ k, n = 3 * k ∨ n = 3 * k + 1 ∨ n = 3 * k + 2 :=
      ⟨n / 3, by omega⟩
    refine ⟨?_, ?_, ?_⟩
    · rw [hc1, hmin1]
      rcases hk with hk | hk | hk <;> rw [hk] <;> [right; right; right] <;>
        omega
    · rw [hc2, hmin2, hmin1]
      rcases hk with hk | hk | hk <;> rw [hk] <;> [left; left; left] <;>
        omega
    · rw [hc3, h3n, Nat.min_self, hmin2]
      rcases hk with hk | hk | hk <;> rw [hk] <;> [left; left; right] <;>
        omega
  · intro i j hi hj hrank
    unfold tercilesOf
    rw [getD_map _ _ i (by rw [rankFirst_length]; exact hi),
      getD_map _ _ j (by rw [rankFirst_length]; exact hj)]
    exact tercileOfRank_mono _ hrank

/-- C2 witness: the column [5, 1, 3, 1] (N = 4, with a tie broken by first
occurrence: ranks [4, 1, 3, 2]) gets tier sizes 2, 1, 1 — each ⌊4/3⌋ or
⌈4/3⌉ — and position 1 (rank 1) gets a tier no larger than position 2
(rank 3). -/
theorem C2_tercile_sizes_and_rank_order_witness :
    (((tercilesOf [(5 : ℚ), 1, 3, 1]).count 1 =
        [(5 : ℚ), 1, 3, 1].length / 3 ∨
      (tercilesOf [(5 : ℚ), 1, 3, 1]).count 1 =
        ([(5 : ℚ), 1, 3, 1].length + 2) / 3) ∧
     ((tercilesOf [(5 : ℚ), 1, 3, 1]).count 2 =
        [(5 : ℚ), 1, 3, 1].length / 3 ∨
      (tercilesOf [(5 : ℚ), 1, 3, 1]).count 2 =
        ([(5 : ℚ), 1, 3, 1].length + 2) / 3) ∧
     ((tercilesOf [(5 : ℚ), 1, 3, 1]).count 3 =
        [(5 : ℚ), 1, 3, 1].length / 3 ∨
      (tercilesOf [(5 : ℚ), 1, 3, 1]).count 3 =
        ([(5 : ℚ), 1, 3, 1].length + 2) / 3)) ∧
    (tercilesOf [(5 : ℚ), 1, 3, 1]).getD 1 0 ≤
      (tercilesOf [(5 : ℚ), 1, 3, 1]).getD 2 0 :=
  ⟨(C2_tercile_sizes_and_rank_order [(5 : ℚ), 1, 3, 1]).1,
   (C2_tercile_sizes_and_rank_order [(5 : ℚ), 1, 3, 1]).2 1 2
     (by decide) (by decide) (by decide)⟩

end TraumaDesert
